import Mathlib

/-!
Verification of the Chain-of-Lakes monitoring fetch pipeline
(`.github/scripts/fetch_lake_data.py`).

The script's pure core is shallowly embedded here:

* `normalize_timestamp`, `is_valid_row`, the line-parsing loop of
  `fetch_data`, `sort_rows`, `clean_and_limit_data` and `write_to_csv`
  are translated definition by definition from the Python source;
* Python `datetime.strptime` with the two formats used by the script
  (`"%d%b%Y"` and `"%d%b%Y %H%M"`) is modelled faithfully, including the
  greedy regex matching of `_strptime`, its case-insensitive month
  abbreviations, its full-match length check, and the calendar range
  validation done by the `date`/`datetime` constructors;
* `datetime` values are represented by their proleptic Gregorian ordinal
  (CPython's `_ymd2ord`) paired with the time of day in microseconds;
  `timedelta` arithmetic moves the ordinal, and comparison is
  lexicographic, exactly as in CPython;
* the HTTP layer is abstracted as a response value (exception /
  non-2xx status / page with an optional preformatted block given as
  its list of lines), and the CSV file as the list of its rows;
  `open(path, "w")` truncates, `writerow`/`writerows` append.

Exceptions that the script raises and catches are modelled with
`Option` at the raising definition and with the caller's fallback at
the catching site.
-/

namespace LakeData

/-- Python whitespace for `str.strip` / `str.split()` (ASCII part:
space, tab, newline, carriage return, vertical tab, form feed). -/
def pyIsSpace (c : Char) : Bool :=
  c = ' ' || c = '\t' || c = '\n' || c = '\r' || c = Char.ofNat 11 || c = Char.ofNat 12

/-- Python `str.strip()`: remove leading and trailing whitespace. -/
def pyStrip (s : String) : String :=
  ⟨((s.data.dropWhile pyIsSpace).reverse.dropWhile pyIsSpace).reverse⟩

/-- Helper for `pySplit`: scan the characters, accumulating the current
word (reversed); whitespace flushes it.  Empty pieces never appear. -/
def wsSplitAux : List Char → List Char → List String
  | [], acc => if acc.isEmpty then [] else [⟨acc.reverse⟩]
  | c :: t, acc =>
    if pyIsSpace c then
      if acc.isEmpty then wsSplitAux t [] else (⟨acc.reverse⟩ : String) :: wsSplitAux t []
    else wsSplitAux t (c :: acc)

/-- Python `str.split()` with no argument: split on whitespace runs,
discarding empty pieces. -/
def pySplit (s : String) : List String :=
  wsSplitAux s.data []

/-- `needle` occurs as a contiguous substring of `hay` (Python's
`needle in hay` on strings), on character lists. -/
def hasInfix (hay needle : List Char) : Bool :=
  match hay with
  | [] => needle.isEmpty
  | _ :: t => needle.isPrefixOf hay || hasInfix t needle

/-- Python `needle in hay` for strings. -/
def pyIn (needle hay : String) : Bool :=
  hasInfix hay.data needle.data

/-- Digit value of an ASCII digit character. -/
def digitVal (c : Char) : Nat := c.toNat - 48

/-- CPython `datetime._is_leap`. -/
def isLeap (y : Nat) : Bool :=
  y % 4 = 0 && (y % 100 ≠ 0 || y % 400 = 0)

/-- CPython `datetime._days_in_month` (table `_DAYS_IN_MONTH` plus the
February leap adjustment). -/
def daysInMonth (y m : Nat) : Nat :=
  match m with
  | 2 => if isLeap y then 29 else 28
  | 4 => 30
  | 6 => 30
  | 9 => 30
  | 11 => 30
  | _ => 31

/-- CPython `datetime._days_before_month` (table `_DAYS_BEFORE_MONTH`
plus the leap adjustment for months after February). -/
def daysBeforeMonth (y m : Nat) : Nat :=
  (match m with
   | 1 => 0 | 2 => 31 | 3 => 59 | 4 => 90 | 5 => 120 | 6 => 151
   | 7 => 181 | 8 => 212 | 9 => 243 | 10 => 273 | 11 => 304 | _ => 334)
  + (if 2 < m && isLeap y then 1 else 0)

/-- CPython `datetime._days_before_year`. -/
def daysBeforeYear (y : Nat) : Nat :=
  365 * (y - 1) + (y - 1) / 4 - (y - 1) / 100 + (y - 1) / 400

/-- A calendar date as parsed by `strptime`. -/
structure Date where
  year : Nat
  month : Nat
  day : Nat
deriving DecidableEq, Repr

/-- CPython `datetime._ymd2ord`: proleptic Gregorian ordinal. -/
def dateOrdinal (d : Date) : Nat :=
  daysBeforeYear d.year + daysBeforeMonth d.year d.month + d.day

/-- The next calendar day (what `+ timedelta(days=1)` does to the
calendar fields of a valid date). -/
def nextDay (d : Date) : Date :=
  if d.day < daysInMonth d.year d.month then ⟨d.year, d.month, d.day + 1⟩
  else if d.month < 12 then ⟨d.year, d.month + 1, 1⟩
  else ⟨d.year + 1, 1, 1⟩

/-- A Python `datetime` value, represented by the Gregorian ordinal of
its calendar date and its time of day in microseconds.  CPython orders
`datetime`s lexicographically on (date, time of day), which coincides
with lexicographic order on this pair. -/
structure PyDateTime where
  ord : Nat
  tod : Nat
deriving DecidableEq, Repr

/-- `datetime` comparison `a <= b`. -/
def pyLe (a b : PyDateTime) : Bool :=
  decide (a.ord < b.ord ∨ (a.ord = b.ord ∧ a.tod ≤ b.tod))

/-- The twelve month abbreviations of `_strptime`'s C-locale regex for
`%b`, uppercased for case-insensitive comparison. -/
def monthAbbrevs : List String :=
  ["JAN", "FEB", "MAR", "APR", "MAY", "JUN",
   "JUL", "AUG", "SEP", "OCT", "NOV", "DEC"]

/-- C-locale abbreviated month names as produced by `strftime("%b")`. -/
def monthTitle (m : Nat) : String :=
  match m with
  | 1 => "Jan" | 2 => "Feb" | 3 => "Mar" | 4 => "Apr" | 5 => "May" | 6 => "Jun"
  | 7 => "Jul" | 8 => "Aug" | 9 => "Sep" | 10 => "Oct" | 11 => "Nov" | _ => "Dec"

/-- Match `%d` (`_strptime` regex `3[01]|[12]\d|0[1-9]|[1-9]`; the
two-digit branches are tried first, and no backtracking into the
one-digit branch can succeed because the following `%b` pattern starts
with a letter). Returns the day and the remaining characters. -/
def matchDay (cs : List Char) : Option (Nat × List Char) :=
  match cs with
  | c0 :: c1 :: rest =>
    if c0 = '3' && (c1 = '0' || c1 = '1') then some (30 + digitVal c1, rest)
    else if (c0 = '1' || c0 = '2') && c1.isDigit then
      some (10 * digitVal c0 + digitVal c1, rest)
    else if c0 = '0' && ('1' ≤ c1 && c1 ≤ '9') then some (digitVal c1, rest)
    else if '1' ≤ c0 && c0 ≤ '9' then some (digitVal c0, c1 :: rest)
    else none
  | [c0] =>
    if '1' ≤ c0 && c0 ≤ '9' then some (digitVal c0, []) else none
  | [] => none

/-- Match `%b`: three characters forming a month abbreviation,
case-insensitively.  Returns the month number (1–12) and the rest. -/
def matchMon (cs : List Char) : Option (Nat × List Char) :=
  match cs with
  | c0 :: c1 :: c2 :: rest =>
    let w : String := ⟨[c0.toUpper, c1.toUpper, c2.toUpper]⟩
    match monthAbbrevs.indexOf? w with
    | some i => some (i + 1, rest)
    | none => none
  | _ => none

/-- Match `%Y` (`\d\d\d\d`: exactly four digits). -/
def matchYear (cs : List Char) : Option (Nat × List Char) :=
  match cs with
  | c0 :: c1 :: c2 :: c3 :: rest =>
    if c0.isDigit && c1.isDigit && c2.isDigit && c3.isDigit then
      some (1000 * digitVal c0 + 100 * digitVal c1 + 10 * digitVal c2 + digitVal c3, rest)
    else none
  | _ => none

/-- Match `%H` as two digits (`2[0-3]|[0-1]\d`). -/
def matchH2 (cs : List Char) : Option (Nat × List Char) :=
  match cs with
  | c0 :: c1 :: rest =>
    if (c0 = '2' && ('0' ≤ c1 && c1 ≤ '3')) || ((c0 = '0' || c0 = '1') && c1.isDigit) then
      some (10 * digitVal c0 + digitVal c1, rest)
    else none
  | _ => none

/-- Match `%M` (`[0-5]\d|\d`), greedy. -/
def matchMin (cs : List Char) : Option (Nat × List Char) :=
  match cs with
  | c0 :: c1 :: rest =>
    if ('0' ≤ c0 && c0 ≤ '5') && c1.isDigit then
      some (10 * digitVal c0 + digitVal c1, rest)
    else if c0.isDigit then some (digitVal c0, c1 :: rest)
    else none
  | [c0] => if c0.isDigit then some (digitVal c0, []) else none
  | [] => none

/-- Match `%H%M` with `_strptime`'s leftmost-greedy backtracking: `%H`
first tries its two-digit branches; if `%M` then fails, `%H` falls back
to a single digit (`\d`), after which `%M` is retried.  The length
check against trailing input is done by the caller. -/
def matchHM (cs : List Char) : Option (Nat × Nat × List Char) :=
  match matchH2 cs with
  | some (h, rest) =>
    match matchMin rest with
    | some (m, rest2) => some (h, m, rest2)
    | none =>
      match cs with
      | c0 :: rest1 =>
        if c0.isDigit then
          match matchMin rest1 with
          | some (m, rest2) => some (digitVal c0, m, rest2)
          | none => none
        else none
      | [] => none
  | none =>
    match cs with
    | c0 :: rest1 =>
      if c0.isDigit then
        match matchMin rest1 with
        | some (m, rest2) => some (digitVal c0, m, rest2)
        | none => none
      else none
    | [] => none

/-- The range validation performed by the `date`/`datetime`
constructors that `strptime` hands its fields to (`_check_date_fields`):
`MINYEAR <= year <= MAXYEAR`, `1 <= month <= 12`,
`1 <= day <= days_in_month`. -/
def dateFieldsOk (y m d : Nat) : Bool :=
  decide (1 ≤ y ∧ y ≤ 9999 ∧ 1 ≤ m ∧ m ≤ 12 ∧ 1 ≤ d ∧ d ≤ daysInMonth y m)

/-- `datetime.strptime(s, "%d%b%Y")`, returning the calendar date, or
`none` where Python raises `ValueError`. -/
def parseDate (s : String) : Option Date :=
  match matchDay s.data with
  | none => none
  | some (d, cs1) =>
    match matchMon cs1 with
    | none => none
    | some (m, cs2) =>
      match matchYear cs2 with
      | none => none
      | some (y, cs3) =>
        if cs3 = [] && dateFieldsOk y m d then some ⟨y, m, d⟩ else none

/-- `datetime.strptime(s, "%d%b%Y %H%M")`, returning the timestamp as a
`PyDateTime`, or `none` where Python raises `ValueError`.  The space in
the format matches one or more whitespace characters. -/
def parseDT (s : String) : Option PyDateTime :=
  match matchDay s.data with
  | none => none
  | some (d, cs1) =>
    match matchMon cs1 with
    | none => none
    | some (m, cs2) =>
      match matchYear cs2 with
      | none => none
      | some (y, cs3) =>
        match cs3 with
        | c :: cs4 =>
          if pyIsSpace c then
            match matchHM (cs4.dropWhile pyIsSpace) with
            | some (hh, mi, cs5) =>
              if cs5 = [] && dateFieldsOk y m d then
                some ⟨dateOrdinal ⟨y, m, d⟩, (hh * 3600 + mi * 60) * 1000000⟩
              else none
            | none => none
          else none
        | [] => none

/-- `strftime("%d%b%Y")` in the C locale: zero-padded day, capitalized
three-letter month, unpadded year (glibc `%Y`). -/
def formatDate (d : Date) : String :=
  (if d.day < 10 then "0" ++ toString d.day else toString d.day)
    ++ monthTitle d.month ++ toString d.year

/-- A parsed data row: the list of its whitespace-separated fields. -/
abbrev Row := List String

/-- Outcome of `normalize_timestamp`: a result, or one of the two
exceptions it can raise.  `valueError` is the `strptime` `ValueError`
on an unparseable date field, caught by the parsing loop's
`except (IndexError, ValueError)`; `overflowError` is the
`OverflowError` raised by `+ timedelta(days=1)` when the result would
pass `datetime.max` (year 9999), which that `except` does NOT catch —
it escapes to `fetch_data`'s outer handler. -/
inductive NormResult where
  | ok : String → String → NormResult
  | valueError : NormResult
  | overflowError : NormResult
deriving DecidableEq, Repr

/-- `normalize_timestamp(raw_date, raw_time)`: correct `"2400"` to
`"0000"`, advancing the date by one day.  The day increment raises
`OverflowError` when it would leave `MINYEAR..MAXYEAR` (only possible
at `31DEC9999`, since parsed years are at most four digits). -/
def normalize_timestamp (raw_date raw_time : String) : NormResult :=
  if raw_time = "2400" then
    match parseDate raw_date with
    | some d =>
      if (nextDay d).year ≤ 9999 then .ok (formatDate (nextDay d)) "0000"
      else .overflowError
    | none => .valueError
  else .ok raw_date raw_time

/-- The missing-data sentinels of `is_valid_row`. -/
def sentinelValues : List String := ["---", "----", "--", "-"]

/-- The `f"{row[0]} {row[1]}"` timestamp string of a row (only used on
rows with at least two fields). -/
def rowTimestamp (row : Row) : String :=
  row.getD 0 "" ++ " " ++ row.getD 1 ""

/-- `is_valid_row(row)`: at least 4 columns, no sentinel field, and the
first two fields parse as `"%d%b%Y %H%M"`. -/
def is_valid_row (row : Row) : Bool :=
  if row.length < 4 then false
  else if row.any (fun v => sentinelValues.contains (pyStrip v)) then false
  else (parseDT (rowTimestamp row)).isSome

/-- The row-parsing loop of `fetch_data`, over the lines of the
preformatted block.  `started` is the `start_parsing` flag: it is set
by the first line containing both a digit and the substring `"JAN"`,
and that same line is already parsed.  A `"7-Day"`/`"Plot"` marker
stops parsing (`break`); rows whose first two columns are missing or
whose `"2400"` date fails to parse are skipped (`IndexError` /
`ValueError` caught), as are rows rejected by `is_valid_row`.  `none`
models an `OverflowError` escaping the loop: the rows accumulated so
far are lost and `fetch_data`'s outer handler takes over. -/
def parseLines (lines : List String) (started : Bool) : Option (List Row) :=
  match lines with
  | [] => some []
  | l :: rest =>
    let row := pyStrip l
    let started' := started || (row.data.any Char.isDigit && pyIn "JAN" row)
    if started' then
      if pyIn "7-Day" row || pyIn "Plot" row then some []
      else
        match pySplit row with
        | c0 :: c1 :: other =>
          match normalize_timestamp c0 c1 with
          | .ok d t =>
            let full : Row := d :: t :: other
            if is_valid_row full then (parseLines rest started').map (full :: ·)
            else parseLines rest started'
          | .valueError => parseLines rest started'
          | .overflowError => none
        | _ => parseLines rest started'
    else parseLines rest started'

/-- The outcome of `requests.get` plus response processing: an
exception (network error etc.), a non-2xx status (on which
`raise_for_status` raises), or a page whose first `<pre>` block —
if any — is given as its list of text lines. -/
inductive FetchResponse where
  | exn : FetchResponse
  | badStatus : FetchResponse
  | okPage : Option (List String) → FetchResponse
deriving DecidableEq

/-- A response on which the fetch cannot produce data: exception,
non-success status, or missing preformatted block. -/
def responseFails (r : FetchResponse) : Bool :=
  match r with
  | .exn => true
  | .badStatus => true
  | .okPage none => true
  | .okPage (some _) => false

/-- `fetch_data`: one GET request; any exception or bad status yields
`[]` (the outer `except` returns `[]`), a page without a `<pre>` tag
yields `[]`, and otherwise the block's lines are parsed — an exception
escaping the parsing loop is caught by the same outer handler, again
yielding `[]`. -/
def fetch_data (r : FetchResponse) : List Row :=
  match r with
  | .exn => []
  | .badStatus => []
  | .okPage none => []
  | .okPage (some lines) =>
    match parseLines lines false with
    | some rows => rows
    | none => []

/-- `fetch_data` run against a stream of per-attempt responses,
additionally counting the GET requests issued.  The script's body
contains a single `requests.get` call and no retry loop, so exactly
the first response is consumed. -/
def fetch_data_run (responses : Nat → FetchResponse) : List Row × Nat :=
  (fetch_data (responses 0), 1)

/-- The sort key `datetime.strptime(f"{x[0]} {x[1]}", "%d%b%Y %H%M")`;
`none` models the `IndexError`/`ValueError` raised on a short or
unparseable row. -/
def rowKey (row : Row) : Option PyDateTime :=
  match row with
  | a :: b :: _ => parseDT (a ++ " " ++ b)
  | _ => none

/-- The key actually compared by `sorted`, defaulting (never reached
under the guard of `sort_rows`). -/
def rowKeyD (row : Row) : PyDateTime :=
  (rowKey row).getD ⟨0, 0⟩

/-- Stable insertion of `a` into `l`: `a` is placed before the first
element it compares `le` to, hence before equal elements that occur
later in the original input. -/
def insertLe (le : α → α → Bool) (a : α) : List α → List α
  | [] => [a]
  | b :: t => if le a b then a :: b :: t else b :: insertLe le a t

/-- Stable sort.  For a total preorder the result of any stable sort is
unique, so this agrees element-for-element with CPython's stable
`sorted`. -/
def stableSort (le : α → α → Bool) : List α → List α
  | [] => []
  | a :: t => insertLe le a (stableSort le t)

/-- `sort_rows(data)`: Python's `sorted` first evaluates the key on
every element and then performs a stable sort; if any key raises, the
`except` branch returns `data` unchanged. -/
def sort_rows (data : List Row) : List Row :=
  if data.all (fun r => (rowKey r).isSome) then
    stableSort (fun x y => pyLe (rowKeyD x) (rowKeyD y)) data
  else data

/-- Insertion-ordered dict assignment `m[k] = v`: replace in place if
the key is present, append otherwise. -/
def dictSet (m : List (String × Row)) (k : String) (v : Row) : List (String × Row) :=
  match m with
  | [] => [(k, v)]
  | (k', v') :: t => if k' = k then (k', v) :: t else (k', v') :: dictSet t k v

/-- Dict lookup. -/
def dictGet (m : List (String × Row)) (k : String) : Option Row :=
  match m with
  | [] => none
  | (k', v') :: t => if k' = k then some v' else dictGet t k

/-- The loop body of `clean_and_limit_data`: skip rows with fewer than
two columns, parse `row[0]` as `"%d%b%Y"` (skipping on `ValueError`),
and keep the row under its timestamp key when its date — a `datetime`
at midnight — is `>=` the cutoff. -/
def cleanStep (cutoff : PyDateTime) (m : List (String × Row)) (row : Row) :
    List (String × Row) :=
  match row with
  | r0 :: r1 :: _ =>
    match parseDate r0 with
    | some d =>
      if pyLe cutoff ⟨dateOrdinal d, 0⟩ then dictSet m (r0 ++ " " ++ r1) row else m
    | none => m
  | _ => m

/-- The retention test applied by `cleanStep`: at least two columns, a
first field parsing as `"%d%b%Y"`, and a date not older than the
cutoff. -/
def keepRow (cutoff : PyDateTime) (row : Row) : Bool :=
  match row with
  | r0 :: _ :: _ =>
    match parseDate r0 with
    | some d => pyLe cutoff ⟨dateOrdinal d, 0⟩
    | none => false
  | _ => false

/-- The last row of `data` that is retained by `cleanStep cutoff` and
has timestamp key `k` (the row whose fields survive last-write-wins
deduplication). -/
def lastKeyRow (cutoff : PyDateTime) (k : String) : List Row → Option Row
  | [] => none
  | r :: rest =>
    match lastKeyRow cutoff k rest with
    | some v => some v
    | none =>
      if keepRow cutoff r && decide (rowTimestamp r = k) then some r else none

/-- `unique_data.values()` after the loop of `clean_and_limit_data`. -/
def cleanValues (data : List Row) (cutoff : PyDateTime) : List Row :=
  (data.foldl (cleanStep cutoff) []).map Prod.snd

/-- `clean_and_limit_data(data, cutoff_date)`. -/
def clean_and_limit_data (data : List Row) (cutoff : PyDateTime) : List Row :=
  sort_rows (cleanValues data cutoff)

/-- `now - timedelta(days=5)`: move the date ordinal back five days,
keeping the time of day. -/
def cutoffFrom (now : PyDateTime) : PyDateTime :=
  ⟨now.ord - 5, now.tod⟩

/-- `open(file_path, "w")`: truncate whatever rows the file held. -/
def pyOpenW (_prior : List (List String)) : List (List String) := []

/-- `writer.writerow`: append one row. -/
def writerow (f : List (List String)) (r : List String) : List (List String) :=
  f ++ [r]

/-- `writer.writerows`: append each row in order. -/
def writerows (f : List (List String)) (rs : List Row) : List (List String) :=
  rs.foldl writerow f

/-- `write_to_csv(file_path, data, headers)` as a transformation of the
destination file's rows, with `datetime.now()` passed explicitly.  The
guard `6 ≤ now.ord` is where `now - timedelta(days=5)` stays inside the
representable `datetime` range; below it Python raises `OverflowError`,
the `except` branch logs, and the file is left untouched. -/
def write_to_csv (prior : List (List String)) (data : List Row)
    (headers : List String) (now : PyDateTime) : List (List String) :=
  if 6 ≤ now.ord then
    let cutoff := cutoffFrom now
    let cleaned := clean_and_limit_data data cutoff
    writerows (writerow (pyOpenW prior) headers) cleaned
  else prior

end LakeData

namespace LakeData

theorem pyLe_trans (a b c : PyDateTime) (h1 : pyLe a b = true) (h2 : pyLe b c = true) :
    pyLe a c = true := by
  simp only [pyLe, decide_eq_true_eq] at h1 h2 ⊢
  omega

theorem pyLe_total (a b : PyDateTime) : (pyLe a b || pyLe b a) = true := by
  simp only [pyLe, Bool.or_eq_true, decide_eq_true_eq]
  omega

theorem mem_insertLe {le : α → α → Bool} {a x : α} {l : List α} :
    x ∈ insertLe le a l ↔ x = a ∨ x ∈ l := by
  induction l with
  | nil => simp [insertLe]
  | cons b t ih =>
    simp only [insertLe]
    split
    · simp [List.mem_cons]
    · simp only [List.mem_cons, ih]
      tauto

theorem perm_insertLe (le : α → α → Bool) (a : α) (l : List α) :
    (insertLe le a l).Perm (a :: l) := by
  induction l with
  | nil => exact List.Perm.refl _
  | cons b t ih =>
    simp only [insertLe]
    split
    · exact List.Perm.refl _
    · exact (ih.cons b).trans (List.Perm.swap a b t)

theorem perm_stableSort (le : α → α → Bool) (l : List α) : (stableSort le l).Perm l := by
  induction l with
  | nil => exact List.Perm.refl _
  | cons a t ih => exact (perm_insertLe le a _).trans (ih.cons a)

theorem pairwise_insertLe {le : α → α → Bool}
    (htrans : ∀ x y z, le x y = true → le y z = true → le x z = true)
    (htotal : ∀ x y, (le x y || le y x) = true)
    {a : α} {l : List α} (h : l.Pairwise (fun x y => le x y = true)) :
    (insertLe le a l).Pairwise (fun x y => le x y = true) := by
  induction l with
  | nil => simp [insertLe]
  | cons b t ih =>
    have hb : ∀ y ∈ t, le b y = true := (List.pairwise_cons.mp h).1
    have ht : t.Pairwise (fun x y => le x y = true) := (List.pairwise_cons.mp h).2
    simp only [insertLe]
    split
    · rename_i hab
      refine List.Pairwise.cons ?_ h
      intro y hy
      rcases List.mem_cons.mp hy with rfl | hy
      · exact hab
      · exact htrans a b y hab (hb y hy)
    · rename_i hab
      have hba : le b a = true := by
        have h' : le a b = true ∨ le b a = true := by simpa using htotal a b
        rcases h' with h' | h'
        · exact absurd h' hab
        · exact h'
      refine List.Pairwise.cons ?_ (ih ht)
      intro y hy
      rcases mem_insertLe.mp hy with rfl | hy
      · exact hba
      · exact hb y hy

theorem pairwise_stableSort {le : α → α → Bool}
    (htrans : ∀ x y z, le x y = true → le y z = true → le x z = true)
    (htotal : ∀ x y, (le x y || le y x) = true) (l : List α) :
    (stableSort le l).Pairwise (fun x y => le x y = true) := by
  induction l with
  | nil => simp [stableSort]
  | cons a t ih => exact pairwise_insertLe htrans htotal ih

theorem sort_rows_perm (l : List Row) : (sort_rows l).Perm l := by
  unfold sort_rows
  split
  · exact perm_stableSort _ l
  · exact List.Perm.refl _

theorem mem_sort_rows {l : List Row} {r : Row} : r ∈ sort_rows l ↔ r ∈ l :=
  (sort_rows_perm l).mem_iff

end LakeData

namespace LakeData

theorem mem_dictSet {m : List (String × Row)} {k : String} {v : Row} {p : String × Row}
    (h : p ∈ dictSet m k v) : p ∈ m ∨ p = (k, v) := by
  induction m with
  | nil => simpa [dictSet] using h
  | cons q t ih =>
    obtain ⟨k', v'⟩ := q
    simp only [dictSet] at h
    split at h
    · rename_i hk
      rcases List.mem_cons.mp h with rfl | h
      · right; rw [hk]
      · left; exact List.mem_cons_of_mem _ h
    · rcases List.mem_cons.mp h with rfl | h
      · left; exact List.mem_cons_self _ _
      · rcases ih h with h | h
        · left; exact List.mem_cons_of_mem _ h
        · right; exact h

theorem dictGet_dictSet_self (m : List (String × Row)) (k : String) (v : Row) :
    dictGet (dictSet m k v) k = some v := by
  induction m with
  | nil => simp [dictSet, dictGet]
  | cons q t ih =>
    obtain ⟨k', v'⟩ := q
    simp only [dictSet]
    split
    · rename_i hk
      simp [dictGet, hk]
    · rename_i hk
      simp [dictGet, hk, ih]

theorem dictGet_dictSet_ne (m : List (String × Row)) {k k' : String} (v : Row)
    (h : k' ≠ k) : dictGet (dictSet m k v) k' = dictGet m k' := by
  induction m with
  | nil =>
    simp only [dictSet, dictGet]
    rw [if_neg (fun h' => h h'.symm)]
  | cons q t ih =>
    obtain ⟨k₀, v₀⟩ := q
    simp only [dictSet]
    split
    · rename_i hk
      subst hk
      simp only [dictGet]
      rw [if_neg (fun h' => h h'.symm), if_neg (fun h' => h h'.symm)]
    · simp only [dictGet, ih]

theorem keys_dictSet (m : List (String × Row)) (k : String) (v : Row) :
    (dictSet m k v).map Prod.fst =
      if k ∈ m.map Prod.fst then m.map Prod.fst else m.map Prod.fst ++ [k] := by
  induction m with
  | nil => simp [dictSet]
  | cons q t ih =>
    obtain ⟨k', v'⟩ := q
    simp only [dictSet]
    split
    · rename_i hk
      subst hk
      simp [List.mem_cons]
    · rename_i hk
      have hkk : ¬ k = k' := fun h' => hk h'.symm
      by_cases hmem : k ∈ t.map Prod.fst
      · simp [List.map_cons, ih, hmem, List.mem_cons, hkk]
      · simp [List.map_cons, ih, hmem, List.mem_cons, hkk]

theorem nodupKeys_dictSet {m : List (String × Row)} (h : (m.map Prod.fst).Nodup)
    (k : String) (v : Row) : ((dictSet m k v).map Prod.fst).Nodup := by
  rw [keys_dictSet]
  split
  · exact h
  · rename_i hk
    simp [List.nodup_append, h, hk]

theorem inv_dictSet {m : List (String × Row)}
    (hinv : ∀ p ∈ m, rowTimestamp p.2 = p.1) {k : String} {v : Row}
    (hv : rowTimestamp v = k) : ∀ p ∈ dictSet m k v, rowTimestamp p.2 = p.1 := by
  intro p hp
  rcases mem_dictSet hp with h | h
  · exact hinv p h
  · rw [h]; exact hv

theorem values_filter_of_inv {m : List (String × Row)}
    (hinv : ∀ p ∈ m, rowTimestamp p.2 = p.1) (hnd : (m.map Prod.fst).Nodup)
    (k : String) :
    (m.map Prod.snd).filter (fun r => decide (rowTimestamp r = k)) =
      (match dictGet m k with | some v => [v] | none => []) := by
  induction m with
  | nil => simp [dictGet]
  | cons q t ih =>
    obtain ⟨k', v'⟩ := q
    have hts : rowTimestamp v' = k' := hinv (k', v') (List.mem_cons_self _ _)
    have hinv' : ∀ p ∈ t, rowTimestamp p.2 = p.1 :=
      fun p hp => hinv p (List.mem_cons_of_mem _ hp)
    have hk' : k' ∉ t.map Prod.fst := (List.nodup_cons.mp hnd).1
    have hnd' : (t.map Prod.fst).Nodup := (List.nodup_cons.mp hnd).2
    simp only [List.map_cons, List.filter_cons, dictGet]
    by_cases hkk : k' = k
    · subst hkk
      have htail : (t.map Prod.snd).filter (fun r => decide (rowTimestamp r = k')) = [] := by
        rw [List.filter_eq_nil_iff]
        intro r hr
        rcases List.mem_map.mp hr with ⟨p, hp, rfl⟩
        have hpk : rowTimestamp p.2 = p.1 := hinv' p hp
        simp only [hpk, decide_eq_true_eq]
        intro hcontra
        exact hk' (hcontra ▸ List.mem_map_of_mem Prod.fst hp)
      simp [hts, htail]
    · have hfalse : (decide (rowTimestamp v' = k)) = false := by
        simp [hts, hkk]
      simp [hfalse, hkk, ih hinv' hnd']

end LakeData

namespace LakeData

theorem rowTimestamp_cons (r0 r1 : String) (rest : List String) :
    rowTimestamp (r0 :: r1 :: rest) = r0 ++ " " ++ r1 := rfl

theorem cleanStep_eq (cutoff : PyDateTime) (m : List (String × Row)) (row : Row) :
    cleanStep cutoff m row =
      if keepRow cutoff row then dictSet m (rowTimestamp row) row else m := by
  match row with
  | [] => rfl
  | [r0] => rfl
  | r0 :: r1 :: rest =>
    simp only [cleanStep, keepRow, rowTimestamp_cons]
    cases hp : parseDate r0 with
    | none => rfl
    | some d =>
      by_cases hle : pyLe cutoff ⟨dateOrdinal d, 0⟩ = true
      · simp [hle]
      · simp [hle]
      
theorem dictGet_fold (cutoff : PyDateTime) (k : String) (data : List Row) :
    ∀ m, dictGet (data.foldl (cleanStep cutoff) m) k =
      (match lastKeyRow cutoff k data with
       | some v => some v
       | none => dictGet m k) := by
  induction data with
  | nil => intro m; simp [lastKeyRow]
  | cons r rest ih =>
    intro m
    simp only [List.foldl_cons, lastKeyRow, ih]
    cases hl : lastKeyRow cutoff k rest with
    | some v => rfl
    | none =>
      simp only
      rw [cleanStep_eq]
      by_cases hk : keepRow cutoff r = true
      · by_cases hts : rowTimestamp r = k
        · rw [if_pos hk]
          rw [hts, dictGet_dictSet_self]
          simp [hk, hts]
        · rw [if_pos hk, dictGet_dictSet_ne _ _ (fun h => hts h.symm)]
          simp [hk, hts]
      · rw [if_neg hk]
        simp [hk]

theorem mem_fold_values (cutoff : PyDateTime) (data : List Row) :
    ∀ (m : List (String × Row)) {r : Row},
      r ∈ (data.foldl (cleanStep cutoff) m).map Prod.snd →
        r ∈ m.map Prod.snd ∨ (r ∈ data ∧ keepRow cutoff r = true) := by
  induction data with
  | nil => intro m r h; exact Or.inl h
  | cons a rest ih =>
    intro m r h
    simp only [List.foldl_cons] at h
    rcases ih (cleanStep cutoff m a) h with h' | h'
    · rw [cleanStep_eq] at h'
      by_cases hk : keepRow cutoff a = true
      · rw [if_pos hk] at h'
        rcases List.mem_map.mp h' with ⟨p, hp, rfl⟩
        rcases mem_dictSet hp with hp' | hp'
        · exact Or.inl (List.mem_map_of_mem Prod.snd hp')
        · subst hp'
          exact Or.inr ⟨List.mem_cons_self _ _, hk⟩
      · rw [if_neg hk] at h'
        exact Or.inl h'
    · exact Or.inr ⟨List.mem_cons_of_mem _ h'.1, h'.2⟩

theorem inv_fold (cutoff : PyDateTime) (data : List Row) :
    ∀ (m : List (String × Row)), (∀ p ∈ m, rowTimestamp p.2 = p.1) →
      ∀ p ∈ data.foldl (cleanStep cutoff) m, rowTimestamp p.2 = p.1 := by
  induction data with
  | nil => intro m hm; exact hm
  | cons a rest ih =>
    intro m hm
    simp only [List.foldl_cons]
    refine ih _ ?_
    rw [cleanStep_eq]
    by_cases hk : keepRow cutoff a = true
    · rw [if_pos hk]
      exact inv_dictSet hm rfl
    · rw [if_neg hk]
      exact hm

theorem nodup_fold (cutoff : PyDateTime) (data : List Row) :
    ∀ (m : List (String × Row)), (m.map Prod.fst).Nodup →
      ((data.foldl (cleanStep cutoff) m).map Prod.fst).Nodup := by
  induction data with
  | nil => intro m hm; exact hm
  | cons a rest ih =>
    intro m hm
    simp only [List.foldl_cons]
    refine ih _ ?_
    rw [cleanStep_eq]
    by_cases hk : keepRow cutoff a = true
    · rw [if_pos hk]
      exact nodupKeys_dictSet hm _ _
    · rw [if_neg hk]
      exact hm

theorem lastKeyRow_append (cutoff : PyDateTime) (k : String) (l1 l2 : List Row) :
    lastKeyRow cutoff k (l1 ++ l2) =
      (match lastKeyRow cutoff k l2 with
       | some v => some v
       | none => lastKeyRow cutoff k l1) := by
  induction l1 with
  | nil =>
    simp only [List.nil_append, lastKeyRow]
    cases lastKeyRow cutoff k l2 <;> rfl
  | cons r t ih =>
    simp only [List.cons_append, lastKeyRow, List.append_eq]
    rw [ih]
    cases lastKeyRow cutoff k l2 <;> cases lastKeyRow cutoff k t <;> rfl

theorem lastKeyRow_eq_none {cutoff : PyDateTime} {k : String} {l : List Row}
    (h : ∀ r ∈ l, rowTimestamp r ≠ k) : lastKeyRow cutoff k l = none := by
  induction l with
  | nil => rfl
  | cons r t ih =>
    have ht : lastKeyRow cutoff k t = none :=
      ih (fun r hr => h r (List.mem_cons_of_mem _ hr))
    have hr : (decide (rowTimestamp r = k)) = false := by
      simp [h r (List.mem_cons_self _ _)]
    simp [lastKeyRow, ht, hr]

theorem sort_rows_nil : sort_rows [] = [] := rfl

theorem sort_rows_singleton (r : Row) : sort_rows [r] = [r] := by
  unfold sort_rows
  split
  · rfl
  · rfl

theorem writerows_eq (f : List (List String)) (rs : List Row) :
    writerows f rs = f ++ rs := by
  induction rs generalizing f with
  | nil => simp [writerows]
  | cons r t ih =>
    simp only [writerows, List.foldl_cons] at ih ⊢
    rw [ih, writerow]
    simp

end LakeData

namespace LakeData

theorem parseDate_fieldsOk {s : String} {d : Date} (h : parseDate s = some d) :
    dateFieldsOk d.year d.month d.day = true := by
  simp only [parseDate] at h
  split at h
  · exact absurd h (by simp)
  · split at h
    · exact absurd h (by simp)
    · split at h
      · exact absurd h (by simp)
      · split at h
        · rename_i hcond
          obtain ⟨rfl⟩ : _ = d := Option.some.inj h
          have hcond' := hcond
          simp only [Bool.and_eq_true] at hcond'
          exact hcond'.2
        · exact absurd h (by simp)

set_option maxHeartbeats 1000000 in
theorem daysBeforeYear_succ {y : Nat} (hy : 1 ≤ y) :
    daysBeforeYear (y + 1) = daysBeforeYear y + 365 + (if isLeap y then 1 else 0) := by
  have hiff : isLeap y = true ↔ (y % 4 = 0 ∧ (y % 100 ≠ 0 ∨ y % 400 = 0)) := by
    simp [isLeap]
  cases hL : isLeap y with
  | true =>
    have hm := hiff.mp hL
    simp only [if_true]
    unfold daysBeforeYear
    simp only [Nat.add_sub_cancel]
    omega
  | false =>
    have hm : ¬ (y % 4 = 0 ∧ (y % 100 ≠ 0 ∨ y % 400 = 0)) := by
      intro hc
      exact absurd (hiff.mpr hc) (by simp [hL])
    simp only [Bool.false_eq_true, if_false]
    unfold daysBeforeYear
    simp only [Nat.add_sub_cancel]
    omega

theorem nextDay_ordinal {d : Date} (h : dateFieldsOk d.year d.month d.day = true) :
    dateOrdinal (nextDay d) = dateOrdinal d + 1 := by
  obtain ⟨y, m, dd⟩ := d
  simp only [dateFieldsOk, decide_eq_true_eq] at h
  obtain ⟨hy1, hy2, hm1, hm2, hd1, hd2⟩ := h
  by_cases hlt : dd < daysInMonth y m
  · have hnd : nextDay ⟨y, m, dd⟩ = ⟨y, m, dd + 1⟩ := by
      simp [nextDay, hlt]
    rw [hnd]
    simp only [dateOrdinal]
    omega
  · by_cases hm12 : m < 12
    · have hstep : daysBeforeMonth y (m + 1) = daysBeforeMonth y m + daysInMonth y m := by
        interval_cases m <;>
          simp only [daysBeforeMonth, daysInMonth] <;>
          cases isLeap y <;> simp
      have hnd : nextDay ⟨y, m, dd⟩ = ⟨y, m + 1, 1⟩ := by
        simp [nextDay, hlt, hm12]
      rw [hnd]
      simp only [dateOrdinal]
      omega
    · have hm : m = 12 := by omega
      subst hm
      have h31 : daysInMonth y 12 = 31 := rfl
      have hdd : dd = 31 := by
        rw [h31] at hlt hd2
        omega
      subst hdd
      have hnd : nextDay ⟨y, 12, 31⟩ = ⟨y + 1, 1, 1⟩ := by
        simp [nextDay, daysInMonth]
      rw [hnd]
      simp only [dateOrdinal]
      have hdbm1 : daysBeforeMonth (y + 1) 1 = 0 := rfl
      have hdbm12 : daysBeforeMonth y 12 = 334 + (if isLeap y then 1 else 0) := rfl
      rw [hdbm1, hdbm12, daysBeforeYear_succ hy1]
      cases isLeap y <;> simp

end LakeData

namespace LakeData

/-- C1 (counterexample): the spec's example output `("01JAN2025",
"0000")` for input `("31DEC2024", "2400")` is not what the code
produces — `strftime("%d%b%Y")` renders the month abbreviation
capitalized (`"01Jan2025"`), not uppercased. -/
theorem midnight_rollover_example_mismatch :
    normalize_timestamp "31DEC2024" "2400" ≠ NormResult.ok "01JAN2025" "0000" := by
  decide

/-- C1 (amended): for a candidate row whose raw time is `"2400"` and
whose raw date parses in `"%d%b%Y"` to a date below `datetime.max`,
`normalize_timestamp` rewrites the time to `"0000"` and replaces the
date by the next calendar day — exactly one day later in
Gregorian-ordinal terms — rendered by `strftime("%d%b%Y")` with a
capitalized month abbreviation (e.g. `"01Jan2025"`, not `"01JAN2025"`);
at the one parseable date where the increment would pass `datetime.max`
(`"31DEC9999"`) the increment raises `OverflowError` instead, which the
row loop does not catch; and a row with any other raw time is returned
with date and time unchanged. -/
theorem midnight_rollover_amended (rd rt : String) :
    (rt ≠ "2400" → normalize_timestamp rd rt = .ok rd rt) ∧
    (∀ d : Date, rt = "2400" → parseDate rd = some d → (nextDay d).year ≤ 9999 →
      normalize_timestamp rd rt = .ok (formatDate (nextDay d)) "0000" ∧
      dateOrdinal (nextDay d) = dateOrdinal d + 1) ∧
    (∀ d : Date, rt = "2400" → parseDate rd = some d → ¬ (nextDay d).year ≤ 9999 →
      normalize_timestamp rd rt = .overflowError) := by
  refine ⟨?_, ?_, ?_⟩
  · intro h
    simp [normalize_timestamp, h]
  · intro d h hp hmax
    subst h
    refine ⟨?_, nextDay_ordinal (parseDate_fieldsOk hp)⟩
    simp [normalize_timestamp, hp, hmax]
  · intro d h hp hmax
    subst h
    simp [normalize_timestamp, hp, hmax]

/-- C1 (witness): `("31DEC2024", "2400")` normalizes to
`("01Jan2025", "0000")`, a non-`"2400"` row is untouched, and
`("31DEC9999", "2400")` raises `OverflowError`. -/
theorem midnight_rollover_amended_witness :
    normalize_timestamp "31DEC2024" "2400" = NormResult.ok "01Jan2025" "0000" ∧
    normalize_timestamp "06JAN2024" "0800" = NormResult.ok "06JAN2024" "0800" ∧
    normalize_timestamp "31DEC9999" "2400" = NormResult.overflowError := by
  refine ⟨?_, ?_, ?_⟩
  · have h := ((midnight_rollover_amended "31DEC2024" "2400").2.1
      ⟨2024, 12, 31⟩ rfl (by decide) (by decide)).1
    rw [h]
    decide
  · exact (midnight_rollover_amended "06JAN2024" "0800").1 (by decide)
  · exact (midnight_rollover_amended "31DEC9999" "2400").2.2
      ⟨9999, 12, 31⟩ rfl (by decide) (by decide)

/-- C2 (counterexample): a record dated exactly at the cutoff's
calendar date is dropped whenever the run's wall-clock time of day is
not midnight: with cutoff `2024-01-06 06:00`, the row dated
`06JAN2024` is excluded, contradicting the claim that it is retained
for every wall-clock time. -/
theorem window_cutoff_date_excluded :
    parseDate "06JAN2024" = some ⟨2024, 1, 6⟩ ∧
    clean_and_limit_data [["06JAN2024", "0800", "1.0", "2.0"]]
        ⟨dateOrdinal ⟨2024, 1, 6⟩, 21600000000⟩ = [] := by
  constructor
  · decide
  · decide

/-- C2 (amended): `clean_and_limit_data` compares the record's date at
midnight against the full cutoff `datetime`: a record dated strictly
after the cutoff's calendar date is always retained, a record dated
exactly at the cutoff's calendar date is retained only when the
cutoff's time of day is exactly midnight, and a record dated one
calendar day or more before the cutoff's date is always excluded. -/
theorem window_boundary_amended (r0 r1 : String) (rest : List String) (d : Date)
    (cutoff : PyDateTime) (hp : parseDate r0 = some d) :
    clean_and_limit_data [r0 :: r1 :: rest] cutoff =
      (if cutoff.ord < dateOrdinal d ∨ (cutoff.ord = dateOrdinal d ∧ cutoff.tod = 0)
       then [r0 :: r1 :: rest] else []) := by
  unfold clean_and_limit_data cleanValues
  simp only [List.foldl_cons, List.foldl_nil]
  rw [cleanStep_eq]
  have hkeep : keepRow cutoff (r0 :: r1 :: rest) = pyLe cutoff ⟨dateOrdinal d, 0⟩ := by
    simp [keepRow, hp]
  by_cases hcond : cutoff.ord < dateOrdinal d ∨ (cutoff.ord = dateOrdinal d ∧ cutoff.tod = 0)
  · have hle : pyLe cutoff ⟨dateOrdinal d, 0⟩ = true := by
      simp only [pyLe, decide_eq_true_eq]
      omega
    rw [if_pos hcond, hkeep, if_pos hle]
    exact sort_rows_singleton _
  · have hle : pyLe cutoff ⟨dateOrdinal d, 0⟩ = false := by
      simp only [pyLe, decide_eq_false_iff_not]
      omega
    rw [if_neg hcond, hkeep, hle]
    simp only [Bool.false_eq_true, if_false, List.map_nil]
    exact sort_rows_nil

/-- C2 (witness): with the same `06:00` cutoff, a record dated the
following day is retained. -/
theorem window_boundary_amended_witness :
    clean_and_limit_data [["07JAN2024", "0800", "1.0", "2.0"]]
        ⟨dateOrdinal ⟨2024, 1, 6⟩, 21600000000⟩ = [["07JAN2024", "0800", "1.0", "2.0"]] := by
  have h := window_boundary_amended "07JAN2024" "0800" ["1.0", "2.0"] ⟨2024, 1, 7⟩
    ⟨dateOrdinal ⟨2024, 1, 6⟩, 21600000000⟩ (by decide)
  rw [h]
  decide

/-- C3 (code bug): the start-of-data sentinel in `fetch_data` demands
the literal substring `"JAN"`, not an arbitrary month abbreviation: a
preformatted block whose data rows are dated in February (digits plus
`"FEB"`) is never parsed at all, while the same line dated in January
is parsed.  The claim — any recognized month abbreviation starts
parsing — matches the spec's evident intent for a year-round monitor;
the code's `"JAN"`-only test contradicts it. -/
theorem start_sentinel_jan_only :
    parseLines ["01FEB2025 0800 912.10 70 0 12 0 12"] false = some [] ∧
    parseLines ["01JAN2025 0800 912.10 70 0 12 0 12"] false
      = some [["01JAN2025", "0800", "912.10", "70", "0", "12", "0", "12"]] ∧
    fetch_data (FetchResponse.okPage (some ["01FEB2025 0800 912.10 70 0 12 0 12"])) = [] ∧
    fetch_data (FetchResponse.okPage (some ["01JAN2025 0800 912.10 70 0 12 0 12"]))
      = [["01JAN2025", "0800", "912.10", "70", "0", "12", "0", "12"]] := by
  refine ⟨?_, ?_, ?_, ?_⟩
  · decide
  · decide
  · decide
  · decide

/-- C4 (counterexample): the claim says a transiently failing fetch is
retried, with 3–5 total attempts; the code issues exactly one GET
request even when that first attempt fails, so the attempt count never
reaches 3. -/
theorem fetch_no_retry :
    (fetch_data_run (fun _ => FetchResponse.exn)).2 = 1 ∧
    ¬ 3 ≤ (fetch_data_run (fun _ => FetchResponse.exn)).2 := by
  exact ⟨rfl, by decide⟩

/-- C4 (amended): for every stream of per-attempt responses,
`fetch_data` issues exactly one GET request, and if that single attempt
fails (exception, non-2xx status, or missing preformatted block) the
fetcher gives up immediately and returns the empty result — there is no
retry and no backoff. -/
theorem fetch_single_attempt (responses : Nat → FetchResponse) :
    (fetch_data_run responses).2 = 1 ∧
    (responseFails (responses 0) = true → (fetch_data_run responses).1 = []) := by
  refine ⟨rfl, ?_⟩
  intro h
  unfold fetch_data_run fetch_data
  cases hr : responses 0 with
  | exn => rfl
  | badStatus => rfl
  | okPage p =>
    cases p with
    | none => rfl
    | some lines =>
      rw [hr] at h
      simp [responseFails] at h

/-- C4 (witness): a stream whose first response is a network exception
yields the empty result after a single request. -/
theorem fetch_single_attempt_witness :
    (fetch_data_run (fun _ => FetchResponse.exn)).1 = [] ∧
    (fetch_data_run (fun _ => FetchResponse.exn)).2 = 1 :=
  ⟨(fetch_single_attempt (fun _ => FetchResponse.exn)).2 rfl,
   (fetch_single_attempt (fun _ => FetchResponse.exn)).1⟩

end LakeData

namespace LakeData

theorem parseLines_valid : ∀ (lines : List String) (b : Bool) (rows : List Row) (r : Row),
    parseLines lines b = some rows → r ∈ rows → is_valid_row r = true := by
  intro lines
  induction lines with
  | nil =>
    intro b rows r hp hr
    simp only [parseLines] at hp
    obtain rfl := Option.some.inj hp
    simp at hr
  | cons l rest ih =>
    intro b rows r hp hr
    simp only [parseLines] at hp
    split at hp
    · split at hp
      · obtain rfl := Option.some.inj hp
        simp at hr
      · split at hp
        · split at hp
          · split at hp
            · rename_i hvalid
              rcases Option.map_eq_some'.mp hp with ⟨rows', hrows', rfl⟩
              rcases List.mem_cons.mp hr with rfl | hr'
              · exact hvalid
              · exact ih _ _ r hrows' hr'
            · exact ih _ _ r hp hr
          · exact ih _ _ r hp hr
          · exact absurd hp (by simp)
        · exact ih _ _ r hp hr
    · exact ih _ _ r hp hr

/-- C5: a candidate row any of whose fields strips to one of the
missing-data sentinels `"-"`, `"--"`, `"---"`, `"----"` fails
`is_valid_row`; conversely a row with at least the required 4 fields,
no sentinel field, and a date+time pair parsing in `"%d%b%Y %H%M"`
passes; and every row emitted by the parsing loop of `fetch_data` has
passed `is_valid_row`, so sentinel rows never reach the dataset. -/
theorem sentinel_rejection (row : Row) :
    ((∃ v ∈ row, pyStrip v ∈ sentinelValues) → is_valid_row row = false) ∧
    (4 ≤ row.length → (∀ v ∈ row, pyStrip v ∉ sentinelValues) →
      (parseDT (rowTimestamp row)).isSome = true → is_valid_row row = true) ∧
    (∀ (lines : List String) (b : Bool) (rows : List Row) (r : Row),
      parseLines lines b = some rows → r ∈ rows → is_valid_row r = true) := by
  refine ⟨?_, ?_, parseLines_valid⟩
  · rintro ⟨v, hv, hs⟩
    unfold is_valid_row
    by_cases hlen : row.length < 4
    · rw [if_pos hlen]
    · rw [if_neg hlen]
      have hany : (row.any fun v => sentinelValues.contains (pyStrip v)) = true := by
        rw [List.any_eq_true]
        exact ⟨v, hv, List.elem_iff.mpr hs⟩
      rw [if_pos hany]
  · intro hlen hns hparse
    unfold is_valid_row
    rw [if_neg (by omega)]
    have hany : (row.any fun v => sentinelValues.contains (pyStrip v)) = false := by
      rw [List.any_eq_false]
      intro v hv
      simp only [Bool.not_eq_true]
      cases hc : sentinelValues.contains (pyStrip v) with
      | false => rfl
      | true => exact absurd (List.elem_iff.mp hc) (hns v hv)
    rw [hany]
    simp only [Bool.false_eq_true, if_false]
    exact hparse

/-- C5 (witness): a row containing `"---"` is rejected; the same row
with a numeric reading is accepted. -/
theorem sentinel_rejection_witness :
    is_valid_row ["01JAN2024", "0600", "---", "30000"] = false ∧
    is_valid_row ["01JAN2024", "0600", "512.34", "30000"] = true := by
  constructor
  · exact (sentinel_rejection ["01JAN2024", "0600", "---", "30000"]).1
      ⟨"---", by decide, by decide⟩
  · exact (sentinel_rejection ["01JAN2024", "0600", "512.34", "30000"]).2.1
      (by decide) (by decide) (by decide)

/-- C6: last-write-wins deduplication — if the input contains a
retained row `A` and later a retained row `B` with the same
`(date, time)` string key, different fields, and no later row carries
that key, then the merged dataset holds exactly one row under that key,
and it is `B`. -/
theorem dedup_last_write_wins (front post : List Row) (A B : Row) (k : String)
    (cutoff : PyDateTime)
    (hA : rowTimestamp A = k) (hB : rowTimestamp B = k) (hAB : A ≠ B)
    (hkA : keepRow cutoff A = true) (hkB : keepRow cutoff B = true)
    (hAin : A ∈ front)
    (hpost : ∀ r ∈ post, rowTimestamp r ≠ k) :
    (clean_and_limit_data (front ++ B :: post) cutoff).filter
        (fun r => decide (rowTimestamp r = k)) = [B] := by
  have hlast : lastKeyRow cutoff k (front ++ B :: post) = some B := by
    rw [lastKeyRow_append]
    have hpn : lastKeyRow cutoff k post = none := lastKeyRow_eq_none hpost
    simp [lastKeyRow, hpn, hkB, hB]
  have hget : dictGet ((front ++ B :: post).foldl (cleanStep cutoff) []) k = some B := by
    rw [dictGet_fold, hlast]
  have hinv : ∀ p ∈ (front ++ B :: post).foldl (cleanStep cutoff) [],
      rowTimestamp p.2 = p.1 := inv_fold cutoff _ [] (by simp)
  have hnd : (((front ++ B :: post).foldl (cleanStep cutoff) []).map Prod.fst).Nodup :=
    nodup_fold cutoff _ [] (by simp)
  have hfv : (cleanValues (front ++ B :: post) cutoff).filter
      (fun r => decide (rowTimestamp r = k)) = [B] := by
    unfold cleanValues
    rw [values_filter_of_inv hinv hnd k, hget]
  have hperm := List.Perm.filter (fun r => decide (rowTimestamp r = k))
    (sort_rows_perm (cleanValues (front ++ B :: post) cutoff))
  rw [hfv] at hperm
  exact List.perm_singleton.mp hperm

/-- C6 (witness): two rows with key `"06JAN2024 0800"` in order `A`
then `B`; the dataset keeps exactly `B`. -/
theorem dedup_last_write_wins_witness :
    (clean_and_limit_data
        [["06JAN2024", "0800", "1.0", "2.0"], ["06JAN2024", "0800", "9.9", "9.9"]]
        ⟨0, 0⟩).filter
        (fun r => decide (rowTimestamp r = "06JAN2024 0800"))
      = [["06JAN2024", "0800", "9.9", "9.9"]] :=
  dedup_last_write_wins [["06JAN2024", "0800", "1.0", "2.0"]] []
    ["06JAN2024", "0800", "1.0", "2.0"] ["06JAN2024", "0800", "9.9", "9.9"]
    "06JAN2024 0800" ⟨0, 0⟩ (by decide) (by decide) (by decide) (by decide) (by decide)
    (by simp) (by simp)

/-- C7: when every input row's `(date, time)` pair parses in
`"%d%b%Y %H%M"`, the merged dataset is sorted ascending by the parsed
timestamp, whatever the input order. -/
theorem chronological_output (data : List Row) (cutoff : PyDateTime)
    (h : ∀ r ∈ data, (rowKey r).isSome = true) :
    (clean_and_limit_data data cutoff).Pairwise
      (fun x y => pyLe (rowKeyD x) (rowKeyD y) = true) := by
  unfold clean_and_limit_data sort_rows
  have hall : ((cleanValues data cutoff).all fun r => (rowKey r).isSome) = true := by
    rw [List.all_eq_true]
    intro r hr
    have hr' : r ∈ (data.foldl (cleanStep cutoff) []).map Prod.snd := hr
    rcases mem_fold_values cutoff data [] hr' with h' | h'
    · simp at h'
    · exact h r h'.1
  rw [if_pos hall]
  exact pairwise_stableSort
    (fun x y z hxy hyz => pyLe_trans (rowKeyD x) (rowKeyD y) (rowKeyD z) hxy hyz)
    (fun x y => pyLe_total (rowKeyD x) (rowKeyD y)) _

/-- C7 (witness): rows fed newest-first come out oldest-first. -/
theorem chronological_output_witness :
    (clean_and_limit_data
        [["02JAN2024", "0600", "1", "2"], ["01JAN2024", "0600", "1", "2"]]
        ⟨0, 0⟩).Pairwise
      (fun x y => pyLe (rowKeyD x) (rowKeyD y) = true) :=
  chronological_output _ _ (by decide)

theorem write_to_csv_eq (prior : List (List String)) (data : List Row)
    (headers : List String) (now : PyDateTime) (h6 : 6 ≤ now.ord) :
    write_to_csv prior data headers now =
      headers :: clean_and_limit_data data (cutoffFrom now) := by
  simp only [write_to_csv]
  rw [if_pos h6, writerows_eq]
  simp [writerow, pyOpenW]

/-- C8: a fetch that fails unrecoverably (exception, non-2xx status, or
page without a preformatted block) returns the empty row list instead
of raising, and the downstream write for that source produces a file
holding exactly the header row. -/
theorem fetch_failure_containment (r : FetchResponse) (prior : List (List String))
    (headers : List String) (now : PyDateTime)
    (hf : responseFails r = true) (h6 : 6 ≤ now.ord) :
    fetch_data r = [] ∧ write_to_csv prior (fetch_data r) headers now = [headers] := by
  have hempty : fetch_data r = [] := by
    cases r with
    | exn => rfl
    | badStatus => rfl
    | okPage p =>
      cases p with
      | none => rfl
      | some lines => simp [responseFails] at hf
  refine ⟨hempty, ?_⟩
  rw [hempty, write_to_csv_eq prior [] headers now h6]
  rfl

/-- C8 (witness): network exception, stale file contents: the write
leaves exactly the header. -/
theorem fetch_failure_containment_witness :
    fetch_data FetchResponse.exn = [] ∧
    write_to_csv [["stale"]] (fetch_data FetchResponse.exn) ["Date", "Time"] ⟨10, 0⟩
      = [["Date", "Time"]] :=
  fetch_failure_containment FetchResponse.exn [["stale"]] ["Date", "Time"] ⟨10, 0⟩
    rfl (by decide)

/-- C9: the sink writes a full replacement — after a successful write
(the cutoff subtraction staying in `datetime` range) the file holds
exactly the header followed by the merged dataset in its order, and
the result does not depend on the file's prior contents. -/
theorem full_replacement_write (prior prior2 : List (List String)) (data : List Row)
    (headers : List String) (now : PyDateTime) (h6 : 6 ≤ now.ord) :
    write_to_csv prior data headers now =
      headers :: clean_and_limit_data data (cutoffFrom now) ∧
    write_to_csv prior data headers now = write_to_csv prior2 data headers now := by
  refine ⟨write_to_csv_eq prior data headers now h6, ?_⟩
  rw [write_to_csv_eq prior data headers now h6, write_to_csv_eq prior2 data headers now h6]

/-- C9 (witness): a file with old contents is fully replaced by header
plus dataset. -/
theorem full_replacement_write_witness :
    write_to_csv [["old"]] [["06JAN2024", "0800", "1.0", "2.0"]] ["Date", "Time"] ⟨10, 0⟩ =
      ["Date", "Time"] ::
        clean_and_limit_data [["06JAN2024", "0800", "1.0", "2.0"]] (cutoffFrom ⟨10, 0⟩) :=
  (full_replacement_write [["old"]] [] [["06JAN2024", "0800", "1.0", "2.0"]]
    ["Date", "Time"] ⟨10, 0⟩ (by decide)).1

/-- C10: `clean_and_limit_data` is total and silently drops bad rows:
every row of the result has at least two fields and a first field
parsing as `"%d%b%Y"` (rows failing either are skipped, not errors),
and if any surviving row's combined timestamp fails to parse, the
function returns the deduplicated rows unsorted (`sorted`'s exception
is swallowed) rather than raising. -/
theorem merge_step_total (data : List Row) (cutoff : PyDateTime) :
    (∀ r ∈ clean_and_limit_data data cutoff,
        2 ≤ r.length ∧ (parseDate (r.getD 0 "")).isSome = true) ∧
    ((∃ r ∈ cleanValues data cutoff, rowKey r = none) →
      clean_and_limit_data data cutoff = cleanValues data cutoff) := by
  constructor
  · intro r hr
    have hru : r ∈ sort_rows (cleanValues data cutoff) := hr
    have hr1 : r ∈ cleanValues data cutoff := mem_sort_rows.mp hru
    have hr' : r ∈ (data.foldl (cleanStep cutoff) []).map Prod.snd := hr1
    rcases mem_fold_values cutoff data [] hr' with h' | h'
    · simp at h'
    · have hk := h'.2
      match r, hk with
      | r0 :: r1 :: rest, hk =>
        refine ⟨by simp, ?_⟩
        simp only [keepRow] at hk
        cases hp : parseDate r0 with
        | none => rw [hp] at hk; simp at hk
        | some d => simp [hp]
  · rintro ⟨r, hr, hnone⟩
    have hall : ((cleanValues data cutoff).all fun r => (rowKey r).isSome) = false := by
      cases hca : (cleanValues data cutoff).all (fun r => (rowKey r).isSome) with
      | false => rfl
      | true => exact absurd (List.all_eq_true.mp hca r hr) (by simp [hnone])
    show sort_rows (cleanValues data cutoff) = cleanValues data cutoff
    unfold sort_rows
    rw [if_neg (by simp [hall])]

/-- C10 (witness): a retained row with unparseable time `"9999"` makes
the sort fall back to the deduplicated, unsorted rows. -/
theorem merge_step_total_witness :
    clean_and_limit_data
        [["06JAN2024", "9999", "1", "2"], ["05JAN2024", "0800", "1", "2"]] ⟨0, 0⟩ =
      cleanValues
        [["06JAN2024", "9999", "1", "2"], ["05JAN2024", "0800", "1", "2"]] ⟨0, 0⟩ :=
  (merge_step_total _ _).2 ⟨["06JAN2024", "9999", "1", "2"], by decide, by decide⟩

end LakeData
